import Mathlib

/-!
Shallow embedding of the DAWG library (src/dawg.hh, src/dawg.cc), a
directed-acyclic-word-graph builder and reader, together with theorems
settling the specification claims about it.

Machine integers are modelled as `Nat` with explicit reduction mod 2^32
where the C code's `uint32_t` arithmetic can wrap.  Raw buffers
(`edges_`, `hash_table_`, `edge_stack_`, `num_edges_stack_`) are
modelled as total functions `Nat → Nat`, zero-initialised exactly as the
C code zero-initialises them (`Edge()` sets `data_ = 0`, the tables are
`memset` to 0).  C `char` values are modelled as byte values `0..255`;
where the C code does signed-`char` arithmetic (sign extension in
`Edge::letter(char)`, ordering in `add_word`) this is made explicit.
-/

/-- Size of hash table (`HASH_TABLE_SIZE = 1000003` in dawg.cc). -/
def HASH_TABLE_SIZE : Nat := 1000003

/-- Maximum number of edges (`MAX_EDGES = HASH_TABLE_SIZE - 1` in dawg.cc). -/
def MAX_EDGES : Nat := HASH_TABLE_SIZE - 1

/-- Maximum number of characters in a node (`MAX_CHARS = 256`). -/
def MAX_CHARS : Nat := 256

/-- Maximum length of a word (`MAX_WORD_LENGTH = 32`). -/
def MAX_WORD_LENGTH : Nat := 32

/-- The file magic number (`MAGIC_NUMBER = 0xC6ACC231`). -/
def MAGIC_NUMBER : Nat := 0xC6ACC231

/-- Modulus of `uint32_t` arithmetic. -/
def U32 : Nat := 4294967296

/-- Value of a byte `b` read as a (signed, as on x86) C `char`:
bytes `0..127` are themselves, bytes `128..255` are negative. -/
def charToInt (b : Nat) : Int := if b < 128 then (b : Int) else (b : Int) - 256

/-- C++11 `std::string::operator[]`: in-range characters, and the
guaranteed null character at position `size()`. -/
def strAt (w : List Nat) (i : Nat) : Nat := w.getD i 0

namespace Edge

/-- `Edge::letter() const`: `(char)(data_ & MASK_LETTER)`, as a byte. -/
def letter (d : Nat) : Nat := d &&& 0xFF

/-- `Edge::end_of_word() const`: `data_ & MASK_END_OF_WORD`. -/
def end_of_word (d : Nat) : Bool := (d &&& 0x100) != 0

/-- `Edge::end_of_node() const`: `data_ & MASK_END_OF_NODE`. -/
def end_of_node (d : Nat) : Bool := (d &&& 0x200) != 0

/-- `Edge::child() const`: `(data_ & MASK_CHILD) >> SHIFT_CHILD`. -/
def child (d : Nat) : Nat := (d &&& 0xFFFFFC00) >>> 10

/-- `Edge::letter(char c)`: `data_ = (data_ & ~MASK_LETTER) | c;`.
The operand `c` is a (signed) `char`; integral promotion sign-extends
it to `int` before the conversion to `uint32_t`, so a byte `c ≥ 128`
contributes `0xFFFFFF00 + c`, not just the low byte. -/
def set_letter (d c : Nat) : Nat :=
  (d &&& 0xFFFFFF00) ||| (if c < 128 then c else 0xFFFFFF00 + c)

/-- `Edge::end_of_word(bool v)`. -/
def set_end_of_word (d : Nat) (v : Bool) : Nat :=
  if v then d ||| 0x100 else d &&& 0xFFFFFEFF

/-- `Edge::end_of_node(bool v)`. -/
def set_end_of_node (d : Nat) (v : Bool) : Nat :=
  if v then d ||| 0x200 else d &&& 0xFFFFFDFF

/-- `Edge::child(Index n)`: `data_ = (data_ & ~MASK_CHILD) | (n << SHIFT_CHILD);`
(`uint32_t` arithmetic, hence the reduction mod 2^32). -/
def set_child (d n : Nat) : Nat := (d &&& 0x3FF) ||| ((n <<< 10) % U32)

end Edge

/-- A loaded `DAWG`: the edge count plus the edge array.  Slots the C
code never wrote hold 0 (freshly `new`-ed `Edge`s are zeroed). -/
structure DAWG where
  numEdges : Nat
  edges : Nat → Nat

/-- `DAWG::find_edge(letter, start)`: scan a node from iterator index
`i` for an edge with the given letter.  `Iterator::operator++` moves to
the next index, or to the null edge (index 0) when the current edge has
`end_of_node` set; the loop stops at `end()` (index 0).  `fuel` bounds
the scan (the C loop is unbounded; on a well-formed graph the bound is
never hit, and `none` marks a run the C code would continue past the
allocation). -/
def findEdge (G : DAWG) (c : Nat) : Nat → Nat → Option Nat
  | 0, _ => none
  | fuel+1, i =>
    if i = 0 then some 0
    else if Edge.letter (G.edges i) = c then some i
    else findEdge G c fuel (if Edge.end_of_node (G.edges i) then 0 else i + 1)

/-- Loop body of `DAWG::contains_word`: at each character, `find_edge`
from the current iterator; if it returns `end()` the word is absent;
otherwise record `end_of_word` and descend to `child`. -/
def containsWordAux (G : DAWG) : List Nat → Nat → Bool → Option Bool
  | [], _, eow => some eow
  | c :: rest, di, _ =>
    match findEdge G c (G.numEdges + 2) di with
    | none => none
    | some 0 => some false
    | some j => containsWordAux G rest (Edge.child (G.edges j)) (Edge.end_of_word (G.edges j))

/-- `DAWG::contains_word(word)`: start at `begin()` (index 1) with
`eow = false`. -/
def containsWord (G : DAWG) (w : List Nat) : Option Bool :=
  containsWordAux G w 1 false

/-- The four little-endian bytes of a `uint32_t`, as written by
`ostream::write((char*)&x, 4)` on a little-endian host. -/
def u32Bytes (n : Nat) : List Nat :=
  [n % 256, n / 256 % 256, n / 65536 % 256, n / 16777216 % 256]

/-- `DAWG::save(out)`: magic number, edge count, then the `num_edges_`
edge words (the sentinel at index `num_edges_` is not written). -/
def dawgSave (G : DAWG) : List Nat :=
  u32Bytes MAGIC_NUMBER ++ u32Bytes G.numEdges ++
    ((List.range G.numEdges).map (fun i => u32Bytes (G.edges i))).flatten

/-- Read 4 bytes as a `uint32_t` (little-endian), with the rest of the
stream; `none` models a short read (`gcount` mismatch). -/
def readU32 : List Nat → Option (Nat × List Nat)
  | b0 :: b1 :: b2 :: b3 :: r => some (b0 + b1 * 256 + b2 * 65536 + b3 * 16777216, r)
  | _ => none

/-- Read `n` consecutive `uint32_t` words; `none` models a short read. -/
def readWords : Nat → List Nat → Option (List Nat × List Nat)
  | 0, bs => some ([], bs)
  | n+1, bs =>
    (readU32 bs).bind fun p =>
      (readWords n p.2).map fun q => (p.1 :: q.1, q.2)

/-- `DAWG::load(istream&)`: read and check the magic number, read the
edge count, allocate `num_edges + 1` zeroed edges, read `num_edges`
edge words, and initialise the root sentinel via `edge(num_edges_)->child(1)`.
`none` models the `FAILURE` status (short header, bad magic, short body). -/
def dawgLoad (bs : List Nat) : Option DAWG :=
  (readU32 bs).bind fun p1 =>
    if p1.1 ≠ MAGIC_NUMBER then none
    else
      (readU32 p1.2).bind fun p2 =>
        (readWords p2.1 p2.2).map fun pw =>
          { numEdges := p2.1,
            edges := fun i =>
              if i < p2.1 then pw.1.getD i 0
              else if i = p2.1 then Edge.set_child 0 1 else 0 }

/-- Error kinds raisable by the builder, matching the `error_()`
messages in dawg.cc ("Word is too long", "Word out of order",
"DAWG is full", "Hash table is full"). -/
inductive ErrKind
  | wordTooLong
  | outOfOrder
  | full
  | hashFull
deriving DecidableEq

/-- The `Creator` state.  `started` models whether the working buffers
(`edges_`, `hash_table_`, `edge_stack_`, `num_edges_stack_`) are
allocated (non-NULL).  `log` is ghost instrumentation: the list of
(start index, edge-word sequence) pairs committed to the arena and
registered in the hash table by `finish_node`, in commit order; it
affects no computed value. -/
structure Creator where
  started : Bool
  numEdges : Nat
  edges : Nat → Nat
  hashTable : Nat → Nat
  edgeStack : Nat → Nat
  numEdgesStack : Nat → Nat
  stackPos : Nat
  log : List (Nat × List Nat)

/-- A freshly constructed `Creator` (all buffer pointers NULL). -/
def freshCreator : Creator :=
  { started := false, numEdges := 0, edges := fun _ => 0, hashTable := fun _ => 0,
    edgeStack := fun _ => 0, numEdgesStack := fun _ => 0, stackPos := 0, log := [] }

/-- The state after `Creator::start()` on a fresh `Creator`: buffers
allocated and zeroed, `num_edges_ = 1 + MAX_CHARS` (slot 0 is the null
edge, slots `1..1+MAX_CHARS` are reserved for the root node). -/
def startState : Creator :=
  { started := true, numEdges := 1 + MAX_CHARS, edges := fun _ => 0,
    hashTable := fun _ => 0, edgeStack := fun _ => 0,
    numEdgesStack := fun _ => 0, stackPos := 0, log := [] }

/-- `Creator::get_edge(stack_pos, edge)`: the flat index
`stack_pos * MAX_CHARS + edge` into `edge_stack_`. -/
def getEdge (st : Creator) (sp e : Nat) : Nat := st.edgeStack (sp * MAX_CHARS + e)

/-- Offset used by `Creator::get_cur_edge`: `num_edges_stack_[stack_pos] - 1`
computed in `uint32_t`, so it wraps to `2^32 - 1` when the count is 0
(this is `(n + (2^32 - 1)) % 2^32` for every in-range `uint32_t` value
`n`, written without `%` so that it reduces on symbolic states). -/
def curEdgeOffset (st : Creator) (sp : Nat) : Nat :=
  if st.numEdgesStack sp = 0 then U32 - 1 else st.numEdgesStack sp - 1

/-- The flat `edge_stack_` index addressed by `Creator::get_cur_edge`,
`stack_pos * MAX_CHARS + (num_edges_stack_[stack_pos] - 1)`, computed
in `uint32_t` (the conditional subtraction is the `% 2^32` reduction
for the in-range operands).  The allocation holds
`MAX_CHARS * MAX_WORD_LENGTH` edges, so any value
`≥ MAX_CHARS * MAX_WORD_LENGTH` is an out-of-bounds access in the C
code. -/
def curEdgeFlat (st : Creator) (sp : Nat) : Nat :=
  if U32 ≤ sp * MAX_CHARS + curEdgeOffset st sp
  then sp * MAX_CHARS + curEdgeOffset st sp - U32
  else sp * MAX_CHARS + curEdgeOffset st sp

/-- Read through `Creator::get_cur_edge(stack_pos)`. -/
def getCurEdge (st : Creator) (sp : Nat) : Nat := st.edgeStack (curEdgeFlat st sp)

/-- Write through `Creator::get_cur_edge(stack_pos)`. -/
def setCurEdge (st : Creator) (sp : Nat) (v : Nat) : Creator :=
  { st with edgeStack := fun k => if k = curEdgeFlat st sp then v else st.edgeStack k }

/-- `Creator::compute_hash(edges, num_edges)`:
`result = ((result << 1) | (result >> 31)) ^ edges[i].data()` over the
node's edge words, in `uint32_t` arithmetic. -/
def computeHash (node : List Nat) : Nat :=
  node.foldl (fun r w => (((r <<< 1) % U32) ||| (r >>> 31)) ^^^ w) 0

/-- The index/step reduction in `Creator::find_hash_index`:
`if (x > HASH_TABLE_SIZE) x -= HASH_TABLE_SIZE;`.  Note the strict
comparison: `x = HASH_TABLE_SIZE` is NOT reduced. -/
def red (x : Nat) : Nat := if HASH_TABLE_SIZE < x then x - HASH_TABLE_SIZE else x

/-- The (index, step) pair before the k-th probe of
`Creator::find_hash_index`: probe 0 uses `(hash % HASH_TABLE_SIZE, 9)`,
and each iteration does `idx += step; step += 9;` followed by the two
`red` reductions. -/
def probePair (h0 : Nat) : Nat → Nat × Nat
  | 0 => (h0, 9)
  | k+1 => (red ((probePair h0 k).1 + (probePair h0 k).2),
            red ((probePair h0 k).2 + 9))

/-- The inner comparison of `Creator::find_hash_index`: compare the
`n` candidate edge words against `edges_[start .. start + n)`. -/
def nodeMatches (ea : Nat → Nat) (start : Nat) (node : List Nat) : Bool :=
  (List.range node.length).all fun i => ea (start + i) == node.getD i 0

/-- Result of `Creator::find_hash_index`: a hash-table slot, the
"Hash table is full" failure (probing cycled back to the start), or
`hang` marking fuel exhaustion (a run on which the C loop has not yet
returned nor cycled). -/
inductive FHIRes
  | found (h : Nat)
  | full
  | hang
deriving DecidableEq

/-- Probe loop of `Creator::find_hash_index`.  At each probe: an empty
slot (`hash_table_[idx] == 0`) or a slot whose node matches is
returned; otherwise advance `idx` and `step` (with the off-by-one `red`
reduction of the C code) and stop with an error if the new index equals
the starting index. -/
def findHashIndexAux (table ea : Nat → Nat) (node : List Nat) (firstIdx : Nat) :
    Nat → Nat → Nat → FHIRes
  | 0, _, _ => .hang
  | fuel+1, idx, step =>
    if table idx = 0 then .found idx
    else if nodeMatches ea (table idx) node then .found idx
    else if red (idx + step) = firstIdx then .full
    else findHashIndexAux table ea node firstIdx fuel (red (idx + step)) (red (step + 9))

/-- `Creator::find_hash_index(edges, num_edges, out)`: probe from
`compute_hash(...) % HASH_TABLE_SIZE` with initial step 9.  Fuel
`2 * HASH_TABLE_SIZE` exceeds the number of probes before the cycle
check can fire. -/
def findHashIndex (table ea : Nat → Nat) (node : List Nat) : FHIRes :=
  findHashIndexAux table ea node (computeHash node % HASH_TABLE_SIZE)
    (2 * HASH_TABLE_SIZE) (computeHash node % HASH_TABLE_SIZE) 9

/-- Write the candidate node's words into the arena at
`edges_[start .. start + n)` (the copy loop of `Creator::finish_node`). -/
def writeNode (ea : Nat → Nat) (start : Nat) (node : List Nat) : Nat → Nat :=
  fun k => if start ≤ k ∧ k < start + node.length then node.getD (k - start) 0 else ea k

/-- Result of a builder step: success, a `FAILURE` status together with
the (possibly part-mutated) state at the point of failure, a violated
`assert` precondition, or a non-terminating probe loop. -/
inductive BuildRes
  | ok (st : Creator)
  | err (k : ErrKind) (st : Creator)
  | assertFail
  | hang

/-- Whether a builder step returned `SUCCESS`. -/
def BuildRes.isOk : BuildRes → Bool
  | .ok _ => true
  | _ => false

/-- Whether a builder step returned the ordinary `FAILURE` status. -/
def BuildRes.isErr : BuildRes → Bool
  | .err _ _ => true
  | _ => false

/-- Result of the hash-table part of `Creator::finish_node`: the node's
canonical start index in the arena plus the updated state. -/
inductive CommitRes
  | ok (idx : Nat) (st : Creator)
  | err (k : ErrKind) (st : Creator)
  | hang

/-- The hash-table interaction of `Creator::finish_node`: find the slot
for the candidate node; if the slot is empty, check capacity, copy the
node's edges into the arena at `num_edges_`, record the start in the
hash table (and in the ghost `log`), and advance `num_edges_`; the
parent is then pointed at the slot's index. -/
def commitNode (st : Creator) (node : List Nat) : CommitRes :=
  match findHashIndex st.hashTable st.edges node with
  | .hang => .hang
  | .full => .err .hashFull st
  | .found h =>
    if st.hashTable h = 0 then
      if MAX_EDGES < st.numEdges + node.length then .err .full st
      else
        .ok st.numEdges
          { st with
            edges := writeNode st.edges st.numEdges node,
            hashTable := fun x => if x = h then st.numEdges else st.hashTable x,
            numEdges := st.numEdges + node.length,
            log := st.log ++ [(st.numEdges, node)] }
    else .ok (st.hashTable h) st

/-- `Creator::finish_node(pos)`: set `end_of_node` on the active edge at
depth `pos`, commit the node through the hash table, point the parent's
active edge (depth `pos - 1`) at the canonical index, then zero the
`MAX_CHARS` stack slots at depth `pos` and reset its edge count.
All call sites pass `pos ≥ 1`. -/
def finishNode (st : Creator) (pos : Nat) : BuildRes :=
  let stA := setCurEdge st pos (Edge.set_end_of_node (getCurEdge st pos) true)
  match commitNode stA ((List.range (stA.numEdgesStack pos)).map (getEdge stA pos)) with
  | .hang => .hang
  | .err k s => .err k s
  | .ok idx stB =>
    let stC := setCurEdge stB (pos - 1) (Edge.set_child (getCurEdge stB (pos - 1)) idx)
    .ok { stC with
          edgeStack := fun k =>
            if pos * MAX_CHARS ≤ k ∧ k < pos * MAX_CHARS + MAX_CHARS then 0
            else stC.edgeStack k,
          numEdgesStack := fun d => if d = pos then 0 else stC.numEdgesStack d }

/-- The loop `for (; stack_pos_ > i; --stack_pos_) finish_node(stack_pos_)`
shared by `Creator::add_word` and `Creator::finish`.  `fuel` is at
least `stack_pos_ + 1` at every call site, so it never runs out. -/
def flushTo : Nat → Creator → Nat → BuildRes
  | 0, st, _ => .ok st
  | fuel+1, st, i =>
    if i < st.stackPos then
      match finishNode st st.stackPos with
      | .ok st1 => flushTo fuel { st1 with stackPos := st.stackPos - 1 } i
      | r => r
    else .ok st

/-- The scan `for (i = 0; i <= stack_pos_ && i < word.length(); i++)
if (word[i] != get_cur_edge(i)->letter()) break;` of `Creator::add_word`. -/
def firstDiffAux (st : Creator) (w : List Nat) : Nat → Nat → Nat
  | 0, i => i
  | fuel+1, i =>
    if i ≤ st.stackPos ∧ i < w.length then
      (if strAt w i ≠ Edge.letter (getCurEdge st i) then i
       else firstDiffAux st w fuel (i + 1))
    else i

/-- Exit value of the first-difference scan in `Creator::add_word`. -/
def firstDiff (st : Creator) (w : List Nat) : Nat :=
  firstDiffAux st w (st.stackPos + 2) 0

/-- The letter-appending loop of `Creator::add_word`:
`for (; stack_pos_ < word.length(); ++stack_pos_) { ++num_edges_stack_[stack_pos_];
get_cur_edge(stack_pos_)->letter(word[stack_pos_]); }`. -/
def appendLetters : Nat → Creator → List Nat → Creator
  | 0, st, _ => st
  | fuel+1, st, w =>
    if st.stackPos < w.length then
      let st1 := { st with
        numEdgesStack := fun d =>
          if d = st.stackPos then st.numEdgesStack st.stackPos + 1
          else st.numEdgesStack d }
      let st2 := setCurEdge st1 st1.stackPos
        (Edge.set_letter (getCurEdge st1 st1.stackPos) (strAt w st1.stackPos))
      appendLetters fuel { st2 with stackPos := st2.stackPos + 1 } w
    else st

/-- `--stack_pos_` in `uint32_t` (wraps to `2^32 - 1` from 0, as in the
final decrement of `Creator::add_word` on an empty word). -/
def dec32 (x : Nat) : Nat := (x + (U32 - 1)) % U32

/-- Tail of `Creator::add_word` after the divergence handling: append
the remaining letters, move `stack_pos_` back to the last letter, and
set `end_of_word` on the active edge there. -/
def addWordRest (st : Creator) (w : List Nat) : Creator :=
  let st2 := appendLetters (w.length + 1) st w
  let st3 := { st2 with stackPos := dec32 st2.stackPos }
  setCurEdge st3 st3.stackPos (Edge.set_end_of_word (getCurEdge st3 st3.stackPos) true)

/-- `Creator::add_word(word)`.  The `assert`s on the working buffers are
modelled by `assertFail` when `started` is false.  Then: the length
check; then, only when `stack_pos_ > 0`, the first-difference scan with
the out-of-order check (difference at `i ≤ stack_pos_`) or the
stack-level bump (difference at `i > stack_pos_`); then the appending
tail. -/
def addWord (st : Creator) (w : List Nat) : BuildRes :=
  if st.started = false then .assertFail
  else if MAX_WORD_LENGTH ≤ w.length then .err .wordTooLong st
  else if 0 < st.stackPos then
    let i := firstDiff st w
    if i ≤ st.stackPos then
      if charToInt (strAt w i) < charToInt (Edge.letter (getCurEdge st i)) then
        .err .outOfOrder st
      else
        match flushTo (st.stackPos + 1) st i with
        | .ok st1 => .ok (addWordRest st1 w)
        | r => r
    else .ok (addWordRest { st with stackPos := st.stackPos + 1 } w)
  else .ok (addWordRest st w)

/-- Feed a list of words to `Creator::add_word` in order, stopping at
the first failure. -/
def addWords : Creator → List (List Nat) → BuildRes
  | st, [] => .ok st
  | st, w :: ws =>
    match addWord st w with
    | .ok st1 => addWords st1 ws
    | r => r

/-- `DAWG::load(num_edges, edges)` as performed at the end of
`Creator::finish`: copy `num_edges_` words and reconstruct the sentinel
`edge(num_edges_)->child(1)` over a zeroed slot. -/
def mkDawg (st : Creator) : DAWG :=
  { numEdges := st.numEdges,
    edges := fun i =>
      if i < st.numEdges then st.edges i
      else if i = st.numEdges then Edge.set_child 0 1 else 0 }

/-- Result of `Creator::finish`: the produced `DAWG` (or failure).  The
`Creator` state reached just before `clear()` is retained alongside the
graph as a ghost observation (it carries the commit `log`). -/
inductive FinishRes
  | ok (g : DAWG) (st : Creator)
  | err (k : ErrKind) (st : Creator)
  | assertFail
  | hang

/-- Root-node emission of `Creator::finish` (after the flush): set
`end_of_node` on the active depth-0 edge (note: when no word was ever
added, `num_edges_stack_[0] = 0` and `get_cur_edge(0)` addresses flat
index `2^32 - 1`), copy the `MAX_CHARS` depth-0 stack slots into
`edges_[1 .. 1 + MAX_CHARS)` (`edges_[1+i] = *get_edge(0, i)`), and set
`end_of_node` on `edges_[1 + MAX_CHARS - 1]`. -/
def finishRoot (st : Creator) : Creator :=
  let st2 := setCurEdge st 0 (Edge.set_end_of_node (getCurEdge st 0) true)
  let st3 := { st2 with
    edges := fun k =>
      if 1 ≤ k ∧ k ≤ MAX_CHARS then st2.edgeStack (k - 1) else st2.edges k }
  { st3 with
    edges := fun k =>
      if k = MAX_CHARS then Edge.set_end_of_node (st3.edges MAX_CHARS) true
      else st3.edges k }

/-- `Creator::finish()`: flush all remaining stack levels, emit the
root node, and build the `DAWG` from `edges_[0 .. num_edges_)`. -/
def creatorFinish (st : Creator) : FinishRes :=
  if st.started = false then .assertFail
  else
    match flushTo (st.stackPos + 1) st 0 with
    | .ok st1 => .ok (mkDawg (finishRoot st1)) (finishRoot st1)
    | .err k s => .err k s
    | .assertFail => .assertFail
    | .hang => .hang

/-- Build a `DAWG` from a word list: `start`, the `add_word` calls, then
`finish`; `none` if any step fails. -/
def buildDawg (ws : List (List Nat)) : Option DAWG :=
  match addWords startState ws with
  | .ok st =>
    match creatorFinish st with
    | .ok G _ => some G
    | _ => none
  | _ => none

/-- Membership in the graph built from a word list. -/
def containsAfterBuild (ws : List (List Nat)) (w : List Nat) : Option Bool :=
  match buildDawg ws with
  | some G => containsWord G w
  | none => none

/-- A hash-table state with one occupied, non-matching slot at index
`HASH_TABLE_SIZE - 9 = 999994` (any committed node's start, e.g. 257),
used to exercise the probe-advance arithmetic of `find_hash_index`. -/
def c7table : Nat → Nat := fun i => if i = 999994 then 257 else 0

/-- An arena whose committed words are all zero (so the slot above never
matches a non-zero candidate). -/
def c7edges : Nat → Nat := fun _ => 0

/-- The run of `addWords` on the two-word input `["ab", "bc"]`
(bytes `[97,98]` and `[98,99]`), used as a concrete witness input. -/
def c2run1 : BuildRes := addWords startState [[97, 98], [98, 99]]

/-- The builder state after that run. -/
def c2st : Creator :=
  match c2run1 with
  | .ok s => s
  | _ => startState

/-- The result of `Creator::finish` on that state. -/
def c2fin : FinishRes := creatorFinish c2st

/-- The graph produced by that finish. -/
def c2G : DAWG :=
  match c2fin with
  | .ok g _ => g
  | _ => mkDawg startState

/-- The final builder state (ghost observation) of that finish. -/
def c2stf : Creator :=
  match c2fin with
  | .ok _ s => s
  | _ => startState

/-- The final builder state of `Creator::finish` run on a started
builder to which no word was ever added. -/
def c6stf : Creator :=
  match creatorFinish startState with
  | .ok _ s => s
  | _ => startState

/-- A small well-formed `DAWG` used as a round-trip witness: one edge
word plus the sentinel at index 1. -/
def dawgC3 : DAWG :=
  { numEdges := 1, edges := fun i => if i = 1 then Edge.set_child 0 1 else 0 }

/-- Invariant of the builder state maintained by every successful
builder step, tying the ghost commit `log` to the arena and the hash
table: committed nodes start at index ≥ 1 + MAX_CHARS, lie below
`num_edges_`, their words are stored verbatim in the arena, each is
reachable through its own probe sequence behind a fully occupied probe
prefix, and no two committed nodes have the same word sequence. -/
structure BuildInv (st : Creator) : Prop where
  ne_lb : 1 + MAX_CHARS ≤ st.numEdges
  entry_lb : ∀ e ∈ st.log, 1 + MAX_CHARS ≤ e.1
  entry_ub : ∀ e ∈ st.log, e.1 + e.2.length ≤ st.numEdges
  entry_data : ∀ e ∈ st.log, ∀ i, i < e.2.length → st.edges (e.1 + i) = e.2.getD i 0
  entry_probe : ∀ e ∈ st.log, ∃ k,
    (∀ j, j < k →
      st.hashTable (probePair (computeHash e.2 % HASH_TABLE_SIZE) j).1 ≠ 0) ∧
    st.hashTable (probePair (computeHash e.2 % HASH_TABLE_SIZE) k).1 = e.1
  entry_distinct : st.log.Pairwise (fun a b => a.2 ≠ b.2)


/-!
Theorems settling the claims.
-/

/-- C10: the claim asserts that `Edge::letter(char c)` changes only bits
0-7 of the packed edge word for every byte value `c`, including
`0x80..0xFF`.  The code disproves it: `c` is a signed `char`, and
`(data_ & ~MASK_LETTER) | c` sign-extends `c`, so `letter(0x80)` on a
zero word sets bits 8-31 as well — `end_of_word`, `end_of_node` and
`child` all change (here from `false`/`false`/`0` to
`true`/`true`/`0x3FFFFF`), contradicting the header's documented bit
layout (bits 0-7 = character). -/
theorem c10_letter_sign_extension :
    Edge.set_letter 0 128 = 0xFFFFFF80 ∧
    Edge.letter (Edge.set_letter 0 128) = 128 ∧
    Edge.end_of_word 0 = false ∧
    Edge.end_of_word (Edge.set_letter 0 128) = true ∧
    Edge.end_of_node 0 = false ∧
    Edge.end_of_node (Edge.set_letter 0 128) = true ∧
    Edge.child 0 = 0 ∧
    Edge.child (Edge.set_letter 0 128) = 0x3FFFFF := by
  decide

/-- C8 counterexample: the rotate-left-1-then-XOR hash is not injective
on edge-word sequences — the distinct length-2 sequences `[0, 3]` and
`[1, 1]` both hash to 3. -/
theorem c8_hash_collision :
    computeHash [0, 3] = computeHash [1, 1] ∧ ([0, 3] : List Nat) ≠ [1, 1] := by
  exact ⟨rfl, by decide⟩

/-- C8 (amended): identical word-for-word sequences always receive the
same hash (the hash is a function of the exact bit-packed words alone),
and on single-word sequences the hash is the word itself and hence
injective; but injectivity fails in general (see the counterexample),
which is why `find_hash_index` compares the full word sequences at an
occupied slot. -/
theorem c8_hash_deterministic :
    (∀ a b : List Nat, a = b → computeHash a = computeHash b) ∧
    (∀ x y : Nat, computeHash [x] = computeHash [y] → x = y) := by
  constructor
  · intro a b h; rw [h]
  · intro x y h
    simpa [computeHash] using h

/-- C8 witness: the amended theorem applied at concrete inputs. -/
theorem c8_hash_deterministic_witness :
    computeHash [0, 3] = computeHash [0, 3] ∧ (5 : Nat) = 5 :=
  ⟨c8_hash_deterministic.1 [0, 3] [0, 3] rfl, c8_hash_deterministic.2 5 5 rfl⟩

/-- C7: the claim asserts every probe index of `find_hash_index` equals
`(previous + step) mod HASH_TABLE_SIZE`, hence stays strictly below
`HASH_TABLE_SIZE`.  The code's reduction uses `>` instead of `>=`
(`if (idx > HASH_TABLE_SIZE) idx -= HASH_TABLE_SIZE`), so from index
`999994` with step 9 the next probe index is exactly
`HASH_TABLE_SIZE = 1000003` — the probe reads
`hash_table_[HASH_TABLE_SIZE]`, one past the table, and here even
returns that out-of-bounds slot for insertion — while the claimed
formula gives `(999994 + 9) % HASH_TABLE_SIZE = 0`. -/
theorem c7_probe_index_oob :
    findHashIndex c7table c7edges [999994] = .found 1000003 ∧
    HASH_TABLE_SIZE ≤ 1000003 ∧
    (999994 + 9) % HASH_TABLE_SIZE = 0 := by
  exact ⟨rfl, by decide, by decide⟩

/-- C9 counterexample: on a `Creator` whose working buffers are
uninitialized, `add_word` and `finish` do not return an ordinary
failure status (there is no `NotStarted` error in the code): they trip
the `assert` preconditions on the buffer pointers. -/
theorem c9_assert_not_error :
    (addWord freshCreator [97]).isErr = false ∧
    (addWord freshCreator [97]).isOk = false ∧
    addWord freshCreator [97] = .assertFail ∧
    creatorFinish freshCreator = .assertFail := by
  exact ⟨rfl, rfl, rfl, rfl⟩

/-- C9 (amended): calling `add_word` or `finish` with uninitialized
working buffers violates the `assert` preconditions at the top of those
functions (an abort in debug builds, unchecked in release builds)
rather than returning an ordinary failure result. -/
theorem c9_unstarted_asserts (st : Creator) (w : List Nat)
    (h : st.started = false) :
    addWord st w = .assertFail ∧ creatorFinish st = .assertFail := by
  constructor
  · simp [addWord, h]
  · simp [creatorFinish, h]

/-- C9 witness: the amended theorem applied to a fresh `Creator`. -/
theorem c9_unstarted_asserts_witness :
    freshCreator.started = false ∧
    (addWord freshCreator [98] = .assertFail ∧
     creatorFinish freshCreator = .assertFail) :=
  ⟨rfl, c9_unstarted_asserts freshCreator [98] rfl⟩

/-- C6: the claim asserts `finish` on a started builder with no words
succeeds with an all-rejecting graph.  The code disproves it: with
`num_edges_stack_[0] = 0`, the call `get_cur_edge(0)->end_of_node(true)`
in `finish` addresses flat stack index `0 * MAX_CHARS + (0 - 1)`
= `2^32 - 1` (uint32 wrap-around), far beyond the
`MAX_CHARS * MAX_WORD_LENGTH = 8192` edges actually allocated for
`edge_stack_` — an out-of-bounds write (undefined behavior), which the
total-function model records by the write landing at index `2^32 - 1`. -/
theorem c6_empty_finish_oob :
    curEdgeFlat startState 0 = U32 - 1 ∧
    MAX_CHARS * MAX_WORD_LENGTH < curEdgeFlat startState 0 ∧
    c6stf.edgeStack (U32 - 1) = Edge.set_end_of_node 0 true := by
  exact ⟨by decide, by decide, rfl⟩

/-- C5: `add_word` rejects any word of length `≥ MAX_WORD_LENGTH` with
the "Word is too long" failure before any mutation (the returned state
is the argument state itself), and a word of length exactly
`MAX_WORD_LENGTH - 1 = 31` passes the length check and succeeds (here:
on a freshly started builder). -/
theorem c5_word_length_limit :
    (∀ (st : Creator) (w : List Nat), st.started = true →
      MAX_WORD_LENGTH ≤ w.length → addWord st w = .err .wordTooLong st) ∧
    (addWord startState (List.replicate 31 97)).isOk = true := by
  constructor
  · intro st w h1 h2
    simp [addWord, h1, h2]
  · rfl

/-- C5 witness: the length-check theorem applied to a 32-byte word on
the freshly started builder, together with the length-31 success. -/
theorem c5_word_length_limit_witness :
    (startState.started = true ∧
     MAX_WORD_LENGTH ≤ (List.replicate 32 97).length) ∧
    addWord startState (List.replicate 32 97) = .err .wordTooLong startState :=
  ⟨⟨rfl, by decide⟩,
   c5_word_length_limit.1 startState (List.replicate 32 97) rfl (by decide)⟩

/-- C4: the claim asserts that any `add_word(w)` with `w` not strictly
greater than the previous word fails with the out-of-order error.  The
code disproves it: the entire divergence/order check is guarded by
`if (stack_pos_ > 0)`, and after any one-letter word `stack_pos_` is 0,
so "b" then "a" is accepted (`SUCCESS`); duplicates are accepted too,
both after a one-letter word ("a","a") and in the general case
("ab","ab", where the divergence index lands past `stack_pos_`). -/
theorem c4_out_of_order_accepted :
    (addWords startState [[98], [97]]).isOk = true ∧
    (addWords startState [[97], [97]]).isOk = true ∧
    (addWords startState [[97, 98], [97, 98]]).isOk = true := by
  exact ⟨rfl, rfl, rfl⟩

/-- C1: the claim asserts exact membership for every strictly
ascending input.  The code disproves it: for the strictly ascending,
in-bounds input S = ["b", "ba"] (bytes `[98]`, `[98,97]`), the
`if (stack_pos_ > 0)` guard in `add_word` skips the divergence
handling after the one-letter word "b", so "ba" appends a second,
duplicate root edge 'b' instead of extending the first; lookups find
the first 'b' edge (child 0), and `contains_word("ba")` returns false
although "ba" ∈ S — while "b" is still found. -/
theorem c1_missing_prefix_share :
    containsAfterBuild [[98], [98, 97]] [98, 97] = some false ∧
    containsAfterBuild [[98], [98, 97]] [98] = some true := by
  exact ⟨rfl, rfl⟩

/-- Reading back the four little-endian bytes of a `uint32_t`
reconstructs it. -/
theorem readU32_u32Bytes (n : Nat) (r : List Nat) (h : n < U32) :
    readU32 (u32Bytes n ++ r) = some (n, r) := by
  unfold U32 at h
  simp only [u32Bytes, List.cons_append, List.nil_append, readU32,
    Option.some.injEq, Prod.mk.injEq]
  exact ⟨by omega, trivial⟩

/-- Reading back a flattened list of encoded `uint32_t` words
reconstructs the list and leaves the rest of the stream. -/
theorem readWords_u32Bytes (l : List Nat) (r : List Nat) (h : ∀ w ∈ l, w < U32) :
    readWords l.length ((l.map u32Bytes).flatten ++ r) = some (l, r) := by
  induction l with
  | nil => simp [readWords]
  | cons w t ih =>
    simp only [List.map_cons, List.flatten_cons, List.append_assoc, List.length_cons]
    rw [readWords, readU32_u32Bytes w _ (h w (by simp))]
    rw [Option.some_bind]
    rw [ih (fun x hx => h x (by simp [hx]))]
    rfl

/-- C3: saving a well-formed `DAWG` (edge words that fit in 32 bits,
sentinel word `child = 1` at index `num_edges`) and loading the
resulting stream yields a graph with the same `num_edges` whose edge
array agrees word-for-word on indices `0 .. num_edges` inclusive (the
loader reconstructs the sentinel as `child(1)` over a zeroed word,
which is exactly the saved graph's sentinel). -/
theorem c3_save_load_roundtrip (G : DAWG)
    (hb : ∀ i, i < G.numEdges → G.edges i < U32)
    (hn : G.numEdges < U32)
    (hs : G.edges G.numEdges = Edge.set_child 0 1) :
    ∃ G2, dawgLoad (dawgSave G) = some G2 ∧ G2.numEdges = G.numEdges ∧
      ∀ i, i ≤ G.numEdges → G2.edges i = G.edges i := by
  have hmagic : MAGIC_NUMBER < U32 := by decide
  have hlen : ((List.range G.numEdges).map G.edges).length = G.numEdges := by
    simp
  have hwlt : ∀ w ∈ (List.range G.numEdges).map G.edges, w < U32 := by
    intro w hw
    obtain ⟨i, hi, rfl⟩ := List.mem_map.mp hw
    exact hb i (List.mem_range.mp hi)
  unfold dawgSave dawgLoad
  rw [List.append_assoc, readU32_u32Bytes MAGIC_NUMBER _ hmagic, Option.some_bind]
  simp only [ne_eq, not_true_eq_false, if_false]
  rw [show ((List.range G.numEdges).map (fun i => u32Bytes (G.edges i))).flatten
      = ((((List.range G.numEdges).map G.edges).map u32Bytes).flatten ++ []) by
    simp [List.map_map, Function.comp_def]]
  rw [readU32_u32Bytes G.numEdges _ hn, Option.some_bind]
  have hrw := readWords_u32Bytes ((List.range G.numEdges).map G.edges) [] hwlt
  rw [hlen] at hrw
  rw [hrw, Option.map_some']
  refine ⟨_, rfl, rfl, ?_⟩
  intro i hi
  show (if i < G.numEdges then ((List.range G.numEdges).map G.edges).getD i 0
        else if i = G.numEdges then Edge.set_child 0 1 else 0) = G.edges i
  rcases Nat.lt_or_ge i G.numEdges with hlt | hge
  · have hlt2 : i < ((List.range G.numEdges).map G.edges).length := by
      rw [hlen]
      exact hlt
    rw [if_pos hlt, List.getD_eq_getElem _ 0 hlt2]
    simp
  · have hEq : i = G.numEdges := by omega
    subst hEq
    rw [if_neg (lt_irrefl _), if_pos rfl, hs]

/-- C3 witness: the round-trip theorem applied to a concrete one-edge
graph. -/
theorem c3_save_load_roundtrip_witness :
    ((∀ i, i < dawgC3.numEdges → dawgC3.edges i < U32) ∧
      dawgC3.numEdges < U32 ∧ dawgC3.edges dawgC3.numEdges = Edge.set_child 0 1) ∧
    (∃ G2, dawgLoad (dawgSave dawgC3) = some G2 ∧ G2.numEdges = dawgC3.numEdges ∧
      ∀ i, i ≤ dawgC3.numEdges → G2.edges i = dawgC3.edges i) :=
  ⟨⟨fun i hi => by
      have h0 : i = 0 := Nat.lt_one_iff.mp hi
      subst h0
      decide,
    by decide, rfl⟩,
   c3_save_load_roundtrip dawgC3
     (fun i hi => by
       have h0 : i = 0 := Nat.lt_one_iff.mp hi
       subst h0
       decide)
     (by decide) rfl⟩

/-- Characterisation of the edge-word comparison in `find_hash_index`. -/
theorem nodeMatches_iff (ea : Nat → Nat) (s : Nat) (node : List Nat) :
    nodeMatches ea s node = true ↔
      ∀ i, i < node.length → ea (s + i) = node.getD i 0 := by
  simp [nodeMatches, List.all_eq_true, List.mem_range]

/-- If the probe loop of `find_hash_index`, entered at probe number `t`,
returns slot `res`, then `res` is some later probe `m` of the same
sequence, every strictly earlier probe from `t` on hit an occupied,
non-matching slot, and `res` itself is either empty or matching. -/
theorem fhiAux_found (table ea : Nat → Nat) (node : List Nat) (h0 : Nat) :
    ∀ (fuel t res : Nat),
      findHashIndexAux table ea node h0 fuel
        (probePair h0 t).1 (probePair h0 t).2 = .found res →
      ∃ m, t ≤ m ∧ res = (probePair h0 m).1 ∧
        (∀ j, t ≤ j → j < m →
          table (probePair h0 j).1 ≠ 0 ∧
          nodeMatches ea (table (probePair h0 j).1) node = false) ∧
        (table res = 0 ∨ nodeMatches ea (table res) node = true) := by
  intro fuel
  induction fuel with
  | zero =>
    intro t res h
    exact absurd h (by simp [findHashIndexAux])
  | succ f ih =>
    intro t res h
    rw [findHashIndexAux] at h
    by_cases h1 : table (probePair h0 t).1 = 0
    · rw [if_pos h1] at h
      injection h with h
      subst h
      exact ⟨t, le_refl t, rfl, fun j hj1 hj2 => absurd hj2 (by omega), Or.inl h1⟩
    · rw [if_neg h1] at h
      by_cases h2 : nodeMatches ea (table (probePair h0 t).1) node = true
      · rw [if_pos h2] at h
        injection h with h
        subst h
        exact ⟨t, le_refl t, rfl, fun j hj1 hj2 => absurd hj2 (by omega), Or.inr h2⟩
      · rw [if_neg h2] at h
        by_cases h3 : red ((probePair h0 t).1 + (probePair h0 t).2) = h0
        · rw [if_pos h3] at h
          exact absurd h (by simp)
        · rw [if_neg h3] at h
          have hrec : findHashIndexAux table ea node h0 f
              (probePair h0 (t+1)).1 (probePair h0 (t+1)).2 = .found res := h
          obtain ⟨m, hm1, hm2, hm3, hm4⟩ := ih (t+1) res hrec
          refine ⟨m, by omega, hm2, ?_, hm4⟩
          intro j hj1 hj2
          rcases Nat.eq_or_lt_of_le hj1 with hEq | hLt
          · rw [← hEq]
            exact ⟨h1, Bool.eq_false_iff.mpr h2⟩
          · exact hm3 j hLt hj2

/-- Specification of a successful `find_hash_index`: the returned slot
is probe number `m` of the deterministic probe sequence, all earlier
probes hit occupied non-matching slots, and the slot itself is empty or
matching. -/
theorem fhi_found (table ea : Nat → Nat) (node : List Nat) (res : Nat)
    (h : findHashIndex table ea node = .found res) :
    ∃ m, res = (probePair (computeHash node % HASH_TABLE_SIZE) m).1 ∧
      (∀ j, j < m →
        table (probePair (computeHash node % HASH_TABLE_SIZE) j).1 ≠ 0 ∧
        nodeMatches ea (table (probePair (computeHash node % HASH_TABLE_SIZE) j).1) node = false) ∧
      (table res = 0 ∨ nodeMatches ea (table res) node = true) := by
  obtain ⟨m, _, hm2, hm3, hm4⟩ :=
    fhiAux_found table ea node (computeHash node % HASH_TABLE_SIZE)
      (2 * HASH_TABLE_SIZE) 0 res h
  exact ⟨m, hm2, fun j hj => hm3 j (Nat.zero_le j) hj, hm4⟩

/-- If a committed node with word sequence `node` is already reachable
through the probe sequence (an occupied prefix followed by a slot
holding its start `s`, whose stored words match `node`), then
`find_hash_index` on `node` cannot return an empty slot — so no second
copy of `node` is ever inserted. -/
theorem insert_no_dup (table ea : Nat → Nat) (node : List Nat) (s hSlot : Nat)
    (hmatch : nodeMatches ea s node = true)
    (hk : ∃ k, (∀ j, j < k →
        table (probePair (computeHash node % HASH_TABLE_SIZE) j).1 ≠ 0) ∧
      table (probePair (computeHash node % HASH_TABLE_SIZE) k).1 = s)
    (hs : s ≠ 0)
    (hfind : findHashIndex table ea node = .found hSlot)
    (hempty : table hSlot = 0) : False := by
  obtain ⟨k, hk1, hk2⟩ := hk
  obtain ⟨m, hm2, hm3, _⟩ := fhi_found table ea node hSlot hfind
  rcases Nat.lt_trichotomy m k with hlt | hEq | hgt
  · exact hk1 m hlt (by rw [← hm2]; exact hempty)
  · subst hEq
    rw [hm2, hk2] at hempty
    exact hs hempty
  · have hc := (hm3 k hgt).2
    rw [hk2] at hc
    rw [hmatch] at hc
    exact absurd hc (by simp)

/-- `BuildInv` only concerns `numEdges`, `edges`, `hashTable` and `log`,
so it transports along any step that leaves those four fields unchanged
(the stack-only mutations of the builder). -/
theorem buildInv_of_fields (st' : Creator) {st : Creator} (h : BuildInv st)
    (h1 : st'.numEdges = st.numEdges) (h2 : st'.edges = st.edges)
    (h3 : st'.hashTable = st.hashTable) (h4 : st'.log = st.log) : BuildInv st' := by
  constructor
  · rw [h1]; exact h.ne_lb
  · rw [h4]; exact h.entry_lb
  · rw [h1, h4]; exact h.entry_ub
  · rw [h2, h4]; exact h.entry_data
  · rw [h3, h4]; exact h.entry_probe
  · rw [h4]; exact h.entry_distinct

/-- The letter-appending loop touches only the stack fields. -/
theorem appendLetters_fields : ∀ (fuel : Nat) (st : Creator) (w : List Nat),
    (appendLetters fuel st w).numEdges = st.numEdges ∧
    (appendLetters fuel st w).edges = st.edges ∧
    (appendLetters fuel st w).hashTable = st.hashTable ∧
    (appendLetters fuel st w).log = st.log := by
  intro fuel
  induction fuel with
  | zero => intro st w; exact ⟨rfl, rfl, rfl, rfl⟩
  | succ f ih =>
    intro st w
    by_cases hsp : st.stackPos < w.length
    · rw [appendLetters, if_pos hsp]
      exact ih _ w
    · rw [appendLetters, if_neg hsp]
      exact ⟨rfl, rfl, rfl, rfl⟩

/-- The tail of `add_word` (append letters, reposition, set
`end_of_word`) touches only the stack fields. -/
theorem addWordRest_fields (st : Creator) (w : List Nat) :
    (addWordRest st w).numEdges = st.numEdges ∧
    (addWordRest st w).edges = st.edges ∧
    (addWordRest st w).hashTable = st.hashTable ∧
    (addWordRest st w).log = st.log := by
  have h := appendLetters_fields (w.length + 1) st w
  exact ⟨h.1, h.2.1, h.2.2.1, h.2.2.2⟩

/-- The hash-table commit step preserves the builder invariant; in the
insertion case the freshly logged node cannot duplicate an existing
committed node (`insert_no_dup`). -/
theorem commitNode_inv {st : Creator} {node : List Nat} {idx : Nat} {st' : Creator}
    (hInv : BuildInv st) (h : commitNode st node = .ok idx st') : BuildInv st' := by
  unfold commitNode at h
  revert h
  cases hF : findHashIndex st.hashTable st.edges node with
  | hang => intro h; simp at h
  | full => intro h; simp at h
  | found hSlot =>
    intro h
    simp only [] at h
    by_cases hE : st.hashTable hSlot = 0
    · rw [if_pos hE] at h
      by_cases hCap : MAX_EDGES < st.numEdges + node.length
      · rw [if_pos hCap] at h
        simp at h
      · rw [if_neg hCap] at h
        injection h with h1 h2
        subst h2
        have hne0 : st.numEdges ≠ 0 := by
          have := hInv.ne_lb
          omega
        constructor
        · exact le_trans hInv.ne_lb (Nat.le_add_right _ _)
        · intro e he
          rcases List.mem_append.mp he with hOld | hNew
          · exact hInv.entry_lb e hOld
          · have heq : e = (st.numEdges, node) := by simpa using hNew
            rw [heq]
            exact hInv.ne_lb
        · intro e he
          rcases List.mem_append.mp he with hOld | hNew
          · exact le_trans (hInv.entry_ub e hOld) (Nat.le_add_right _ _)
          · have heq : e = (st.numEdges, node) := by simpa using hNew
            rw [heq]
        · intro e he i hi
          rcases List.mem_append.mp he with hOld | hNew
          · have hub := hInv.entry_ub e hOld
            show writeNode st.edges st.numEdges node (e.1 + i) = e.2.getD i 0
            rw [writeNode, if_neg (by omega)]
            exact hInv.entry_data e hOld i hi
          · have heq : e = (st.numEdges, node) := by simpa using hNew
            subst heq
            show writeNode st.edges st.numEdges node (st.numEdges + i) = node.getD i 0
            rw [writeNode, if_pos ⟨Nat.le_add_right _ _, by exact Nat.add_lt_add_left hi _⟩]
            rw [Nat.add_sub_cancel_left]
        · intro e he
          rcases List.mem_append.mp he with hOld | hNew
          · obtain ⟨k, hk1, hk2⟩ := hInv.entry_probe e hOld
            have helb := hInv.entry_lb e hOld
            refine ⟨k, ?_, ?_⟩
            · intro j hj
              show (if (probePair (computeHash e.2 % HASH_TABLE_SIZE) j).1 = hSlot
                    then st.numEdges else _) ≠ 0
              split
              · exact hne0
              · exact hk1 j hj
            · show (if (probePair (computeHash e.2 % HASH_TABLE_SIZE) k).1 = hSlot
                    then st.numEdges else _) = e.1
              by_cases hx : (probePair (computeHash e.2 % HASH_TABLE_SIZE) k).1 = hSlot
              · rw [hx] at hk2
                rw [hE] at hk2
                omega
              · rw [if_neg hx]
                exact hk2
          · have heq : e = (st.numEdges, node) := by simpa using hNew
            subst heq
            obtain ⟨m, hm2, hm3, _⟩ := fhi_found st.hashTable st.edges node hSlot hF
            refine ⟨m, ?_, ?_⟩
            · intro j hj
              show (if (probePair (computeHash node % HASH_TABLE_SIZE) j).1 = hSlot
                    then st.numEdges else _) ≠ 0
              split
              · exact hne0
              · exact (hm3 j hj).1
            · show (if (probePair (computeHash node % HASH_TABLE_SIZE) m).1 = hSlot
                    then st.numEdges else _) = st.numEdges
              rw [if_pos hm2.symm]
        · show (st.log ++ [(st.numEdges, node)]).Pairwise (fun a b => a.2 ≠ b.2)
          rw [List.pairwise_append]
          refine ⟨hInv.entry_distinct, List.pairwise_singleton _ _, ?_⟩
          intro a ha b hb
          have hb' : b = (st.numEdges, node) := by simpa using hb
          subst hb'
          intro hEq
          have hd := hInv.entry_data a ha
          rw [hEq] at hd
          have hp := hInv.entry_probe a ha
          rw [hEq] at hp
          exact insert_no_dup st.hashTable st.edges node a.1 hSlot
            ((nodeMatches_iff _ _ _).mpr hd) hp
            (by have := hInv.entry_lb a ha; omega) hF hE
    · rw [if_neg hE] at h
      injection h with h1 h2
      subst h2
      exact hInv

/-- `finish_node` preserves the builder invariant (the `end_of_node`
write, the parent-child link, and the stack clearing touch only stack
fields; the commit step is `commitNode_inv`). -/
theorem finishNode_inv {st : Creator} {pos : Nat} {st' : Creator}
    (hInv : BuildInv st) (h : finishNode st pos = .ok st') : BuildInv st' := by
  simp only [finishNode] at h
  revert h
  cases hC : commitNode (setCurEdge st pos (Edge.set_end_of_node (getCurEdge st pos) true))
      ((List.range ((setCurEdge st pos
          (Edge.set_end_of_node (getCurEdge st pos) true)).numEdgesStack pos)).map
        (getEdge (setCurEdge st pos (Edge.set_end_of_node (getCurEdge st pos) true)) pos)) with
  | hang => intro h; simp at h
  | err k s => intro h; simp at h
  | ok idx stB =>
    intro h
    injection h with h2
    subst h2
    have hInvA : BuildInv (setCurEdge st pos (Edge.set_end_of_node (getCurEdge st pos) true)) :=
      buildInv_of_fields _ hInv rfl rfl rfl rfl
    have hInvB : BuildInv stB := commitNode_inv hInvA hC
    exact buildInv_of_fields _ hInvB rfl rfl rfl rfl

/-- The node-flushing loop preserves the builder invariant. -/
theorem flushTo_inv : ∀ (fuel : Nat) {st : Creator} {i : Nat} {st' : Creator},
    BuildInv st → flushTo fuel st i = .ok st' → BuildInv st' := by
  intro fuel
  induction fuel with
  | zero =>
    intro st i st' hInv h
    rw [flushTo] at h
    injection h with h
    subst h
    exact hInv
  | succ f ih =>
    intro st i st' hInv h
    rw [flushTo] at h
    split at h
    · revert h
      cases hF : finishNode st st.stackPos with
      | ok st1 =>
        intro h
        have hInv1 : BuildInv { st1 with stackPos := st.stackPos - 1 } :=
          buildInv_of_fields _ (finishNode_inv hInv hF) rfl rfl rfl rfl
        exact ih hInv1 h
      | err k s => intro h; simp at h
      | assertFail => intro h; simp at h
      | hang => intro h; simp at h
    · injection h with h
      subst h
      exact hInv

/-- `add_word` preserves the builder invariant: its only commits go
through the flushing loop, and everything else is stack-only. -/
theorem addWord_inv {st : Creator} {w : List Nat} {st' : Creator}
    (hInv : BuildInv st) (h : addWord st w = .ok st') : BuildInv st' := by
  simp only [addWord] at h
  split at h
  · simp at h
  · split at h
    · simp at h
    · split at h
      · split at h
        · split at h
          · simp at h
          · revert h
            cases hFl : flushTo (st.stackPos + 1) st (firstDiff st w) with
            | ok st1 =>
              intro h
              injection h with h
              subst h
              have h1 := flushTo_inv _ hInv hFl
              have hf := addWordRest_fields st1 w
              exact buildInv_of_fields _ h1 hf.1 hf.2.1 hf.2.2.1 hf.2.2.2
            | err k s => intro h; simp at h
            | assertFail => intro h; simp at h
            | hang => intro h; simp at h
        · injection h with h
          subst h
          have hInvX : BuildInv { st with stackPos := st.stackPos + 1 } :=
            buildInv_of_fields _ hInv rfl rfl rfl rfl
          have hf := addWordRest_fields { st with stackPos := st.stackPos + 1 } w
          exact buildInv_of_fields _ hInvX hf.1 hf.2.1 hf.2.2.1 hf.2.2.2
      · injection h with h
        subst h
        have hf := addWordRest_fields st w
        exact buildInv_of_fields _ hInv hf.1 hf.2.1 hf.2.2.1 hf.2.2.2

/-- Feeding a word list preserves the builder invariant. -/
theorem addWords_inv : ∀ (ws : List (List Nat)) {st st' : Creator},
    BuildInv st → addWords st ws = .ok st' → BuildInv st' := by
  intro ws
  induction ws with
  | nil =>
    intro st st' hInv h
    rw [addWords] at h
    injection h with h
    subst h
    exact hInv
  | cons w t ih =>
    intro st st' hInv h
    rw [addWords] at h
    revert h
    cases hA : addWord st w with
    | ok st1 => intro h; exact ih (addWord_inv hInv hA) h
    | err k s => intro h; simp at h
    | assertFail => intro h; simp at h
    | hang => intro h; simp at h

set_option maxRecDepth 4000 in
/-- The root-node emission leaves every arena slot above `MAX_CHARS`
unchanged (it writes only `edges_[1 .. MAX_CHARS]`). -/
theorem finishRoot_edges_high (st : Creator) (x : Nat) (hx : MAX_CHARS < x) :
    (finishRoot st).edges x = st.edges x := by
  have h1 : ¬ (x = MAX_CHARS) := by omega
  have h2 : ¬ (1 ≤ x ∧ x ≤ MAX_CHARS) := by omega
  unfold finishRoot
  simp only [if_neg h1, if_neg h2]
  rfl

/-- `Creator::finish` preserves the builder invariant on its ghost
final state: committed nodes start above `MAX_CHARS`, so the root copy
into `edges_[1 .. MAX_CHARS]` does not touch them. -/
theorem creatorFinish_inv {st : Creator} {G : DAWG} {stf : Creator}
    (hInv : BuildInv st) (h : creatorFinish st = .ok G stf) : BuildInv stf := by
  simp only [creatorFinish] at h
  split at h
  · simp at h
  · revert h
    cases hF : flushTo (st.stackPos + 1) st 0 with
    | ok st1 =>
      intro h
      injection h with hG hstf
      subst hstf
      have hInv1 : BuildInv st1 := flushTo_inv _ hInv hF
      refine ⟨hInv1.ne_lb, hInv1.entry_lb, hInv1.entry_ub, ?_, hInv1.entry_probe,
        hInv1.entry_distinct⟩
      intro e he i hi
      have hlb := hInv1.entry_lb e he
      rw [finishRoot_edges_high st1 (e.1 + i) (by omega)]
      exact hInv1.entry_data e he i hi
    | err k s => intro h; simp at h
    | assertFail => intro h; simp at h
    | hang => intro h; simp at h

/-- The freshly started builder satisfies the invariant (empty log). -/
theorem buildInv_start : BuildInv startState := by
  constructor
  · exact le_refl _
  · intro e he
    exact absurd he (List.not_mem_nil e)
  · intro e he
    exact absurd he (List.not_mem_nil e)
  · intro e he
    exact absurd he (List.not_mem_nil e)
  · intro e he
    exact absurd he (List.not_mem_nil e)
  · exact List.Pairwise.nil

/-- C2: in every DAWG produced by a successful `Creator::finish`, no
two committed nodes (the runs of edges registered in the hash table by
`finish_node`, recorded in the ghost `log`) have identical packed
edge-word sequences: every commit routes through `find_hash_index`,
which returns an existing node's slot (word-for-word comparison behind
a fully occupied, deterministic probe prefix) before it can return an
empty slot for a duplicate insertion. -/
theorem c2_committed_nodes_distinct (ws : List (List Nat)) (st stf : Creator) (G : DAWG)
    (h1 : addWords startState ws = .ok st)
    (h2 : creatorFinish st = .ok G stf) :
    stf.log.Pairwise (fun a b => a.2 ≠ b.2) :=
  (creatorFinish_inv (addWords_inv ws buildInv_start h1) h2).entry_distinct

/-- C2 witness: the minimality theorem applied to the concrete build
of ["ab", "bc"], whose final log holds two committed one-edge nodes. -/
theorem c2_committed_nodes_distinct_witness :
    (addWords startState [[97, 98], [98, 99]] = .ok c2st ∧
     creatorFinish c2st = .ok c2G c2stf) ∧
    c2stf.log.Pairwise (fun a b => a.2 ≠ b.2) :=
  ⟨⟨rfl, rfl⟩,
   c2_committed_nodes_distinct [[97, 98], [98, 99]] c2st c2stf c2G rfl rfl⟩
